import Mathlib

/-!
Shallow embedding of the execution-scheduling engine of `rlooe`
(`src/core/environment/limit_orders_setup/execution_algo.py` and
`base_env.py`), together with theorems settling the frozen claims.

Conventions of the embedding:
* Exact decimal quantities (Python `Decimal`, and the float arithmetic the
  code performs before converting to `Decimal`) are embedded as rationals `ℚ`.
* The tick size is carried as its multiplier `m : ℕ` with `tick_size = 1/m`
  (the code computes `int(1/ticks)` once and works with that integer).
* Python `ValueError` / `ZeroDivisionError` are embedded as `Except String` /
  `Option` results.
* Randomness (jitter draws, placement-function outputs) is embedded as an
  explicit stream parameter, and `while` loops over random draws take fuel.
-/

/-- Embeds `split_across_buckets(quantity, n_splits, ticks)`
(`execution_algo.py:23-29`).  `m` is the tick multiplier `int(1/ticks)`.
Python `divmod(x, n)` on numbers is `(⌊x/n⌋, x - n*⌊x/n⌋)`; `divmod(x, 0)`
raises `ZeroDivisionError`, embedded as `none`.  Part `i` receives
`base_vol` plus one tick when `i * ticks < extra_vol`. -/
def split_across_buckets (quantity : ℚ) (nSplits m : ℕ) : Option (List ℚ) :=
  if nSplits = 0 then none
  else
    some (List.ofFn (fun i : Fin nSplits =>
      (⌊quantity * m / nSplits⌋ : ℚ) / m +
        if ((i : ℕ) : ℚ) * (1 / (m : ℚ)) <
            (quantity * m - nSplits * ⌊quantity * m / nSplits⌋) / m
        then 1 / (m : ℚ) else 0))

lemma floor_natCast_div (k n : ℕ) : ⌊(k : ℚ) / (n : ℚ)⌋ = (k / n : ℕ) := by
  rw [Rat.floor_natCast_div_natCast]
  omega

lemma split_across_buckets_eq (k n m : ℕ) (hn : n ≠ 0) (hm : m ≠ 0) :
    split_across_buckets ((k : ℚ) / m) n m =
      some (List.ofFn (fun i : Fin n =>
        (((k / n + if (i : ℕ) < k % n then 1 else 0 : ℕ) : ℚ) / m))) := by
  have hm' : (0 : ℚ) < (m : ℚ) := by positivity
  unfold split_across_buckets
  rw [if_neg hn]
  have hscaled : (k : ℚ) / m * m = (k : ℚ) := by field_simp
  simp only [hscaled]
  refine congrArg some (congrArg List.ofFn (funext fun i => ?_))
  have hfq : ((⌊(k : ℚ) / (n : ℚ)⌋ : ℤ) : ℚ) = ((k / n : ℕ) : ℚ) := by
    rw [floor_natCast_div]
    norm_cast
  rw [hfq]
  have hdm : (n : ℚ) * ((k / n : ℕ) : ℚ) + ((k % n : ℕ) : ℚ) = (k : ℚ) := by
    exact_mod_cast congrArg (Nat.cast : ℕ → ℚ) (Nat.div_add_mod k n)
  have hextra : (k : ℚ) - (n : ℚ) * ((k / n : ℕ) : ℚ) = ((k % n : ℕ) : ℚ) := by
    linarith
  rw [hextra]
  have hcond : (((i : ℕ) : ℚ) * (1 / (m : ℚ)) < ((k % n : ℕ) : ℚ) / m) ↔ ((i : ℕ) < k % n) := by
    rw [mul_one_div, div_lt_div_iff_of_pos_right hm']
    exact_mod_cast Iff.rfl
  by_cases h : (i : ℕ) < k % n
  · rw [if_pos (hcond.mpr h), if_pos h, Nat.cast_add, Nat.cast_one]
    ring
  · rw [if_neg (fun hc => h (hcond.mp hc)), if_neg h, Nat.cast_add, Nat.cast_zero]
    ring

lemma sum_indicator_lt (n r : ℕ) (hr : r ≤ n) :
    (∑ i ∈ Finset.range n, if i < r then (1 : ℚ) else 0) = (r : ℚ) := by
  have hfilter : (Finset.range n).filter (fun i => i < r) = Finset.range r := by
    ext x
    simp only [Finset.mem_filter, Finset.mem_range]
    omega
  rw [Finset.sum_ite, Finset.sum_const, Finset.sum_const_zero, hfilter, Finset.card_range]
  simp

/-- Claim C2: for every quantity that is a non-negative multiple of the tick
size (`quantity = k/m`) and every `n ≥ 1`, `split_across_buckets` returns
exactly `n` parts, each a non-negative multiple of the tick, summing exactly
to the quantity (its own floor to the tick grid), with the `k mod n`
remainder ticks given one each to the first parts, so parts are
non-increasing and early parts are larger by at most one tick. -/
theorem claim_C2_volume_splitter (k n m : ℕ) (hn : 1 ≤ n) (hm : 1 ≤ m) :
    ∃ parts : List ℚ,
      split_across_buckets ((k : ℚ) / m) n m = some parts ∧
      parts.length = n ∧
      (∀ p ∈ parts, 0 ≤ p ∧ ∃ j : ℕ, p = (j : ℚ) / m) ∧
      parts.sum = (k : ℚ) / m ∧
      (∀ i : ℕ, ∀ h : i < parts.length,
        parts.get ⟨i, h⟩ = ((k / n : ℕ) : ℚ) / m +
          (if i < k % n then (1 : ℚ) / m else 0)) ∧
      (∀ i j : ℕ, ∀ hi : i < parts.length, ∀ hj : j < parts.length, i ≤ j →
        parts.get ⟨j, hj⟩ ≤ parts.get ⟨i, hi⟩ ∧
        parts.get ⟨i, hi⟩ ≤ parts.get ⟨j, hj⟩ + 1 / m) := by
  have hn0 : n ≠ 0 := by omega
  have hm0 : m ≠ 0 := by omega
  have hm' : (0 : ℚ) < (m : ℚ) := by positivity
  refine ⟨_, split_across_buckets_eq k n m hn0 hm0, ?_, ?_, ?_, ?_, ?_⟩
  · simp
  · intro p hp
    rw [List.mem_ofFn] at hp
    obtain ⟨i, hi⟩ := hp
    refine ⟨by rw [← hi]; positivity, ⟨k / n + if (i : ℕ) < k % n then 1 else 0, hi.symm⟩⟩
  · rw [List.sum_ofFn]
    have hstep : ∀ i : Fin n,
        (((k / n + if (i : ℕ) < k % n then 1 else 0 : ℕ) : ℚ) / m) =
          (((k / n : ℕ) : ℚ) + (if (i : ℕ) < k % n then (1 : ℚ) else 0)) / m := by
      intro i
      by_cases h : (i : ℕ) < k % n
      · rw [if_pos h, if_pos h]; push_cast; ring
      · rw [if_neg h, if_neg h]; push_cast; ring
    rw [Finset.sum_congr rfl (fun i _ => hstep i)]
    rw [← Finset.sum_div]
    rw [Finset.sum_add_distrib, Finset.sum_const, Finset.card_univ, Fintype.card_fin]
    rw [Fin.sum_univ_eq_sum_range (fun i => if i < k % n then (1 : ℚ) else 0)]
    rw [sum_indicator_lt n (k % n) (le_of_lt (Nat.mod_lt k (by omega)))]
    have hdm : (n : ℚ) * ((k / n : ℕ) : ℚ) + ((k % n : ℕ) : ℚ) = (k : ℚ) := by
      exact_mod_cast congrArg (Nat.cast : ℕ → ℚ) (Nat.div_add_mod k n)
    rw [nsmul_eq_mul, hdm]
  · intro i h
    rw [List.get_ofFn]
    simp only [Fin.cast]
    by_cases hik : i < k % n
    · rw [if_pos hik, if_pos hik]
      push_cast
      ring
    · rw [if_neg hik, if_neg hik]
      push_cast
      ring
  · intro i j hi hj hij
    rw [List.get_ofFn, List.get_ofFn]
    simp only [Fin.cast]
    constructor
    · by_cases hjk : j < k % n
      · rw [if_pos hjk, if_pos (lt_of_le_of_lt hij hjk)]
      · by_cases hik : i < k % n
        · rw [if_neg hjk, if_pos hik, div_le_div_iff_of_pos_right hm']
          push_cast
          linarith
        · rw [if_neg hjk, if_neg hik]
    · rw [div_add_div_same, div_le_div_iff_of_pos_right hm']
      by_cases hik : i < k % n
      · rw [if_pos hik]
        by_cases hjk : j < k % n
        · rw [if_pos hjk]
          push_cast
          linarith
        · rw [if_neg hjk]
          push_cast
          linarith
      · rw [if_neg hik]
        by_cases hjk : j < k % n
        · rw [if_pos hjk]
          push_cast
          linarith
        · rw [if_neg hjk]
          push_cast
          linarith

/-- Witness for C2: splitting quantity 1000 with tick size 1 into 3 parts
yields `[334, 333, 333]` (the remainder tick goes to part 0 only), and the
general theorem applies at this input. -/
theorem claim_C2_volume_splitter_witness :
    ((1 ≤ 3 ∧ 1 ≤ 1) ∧
      split_across_buckets (((1000 : ℕ) : ℚ) / ((1 : ℕ) : ℚ)) 3 1 =
        some [334, 333, 333]) ∧
    (∃ parts : List ℚ,
      split_across_buckets (((1000 : ℕ) : ℚ) / ((1 : ℕ) : ℚ)) 3 1 = some parts ∧
      parts.length = 3 ∧
      (∀ p ∈ parts, 0 ≤ p ∧ ∃ j : ℕ, p = (j : ℚ) / ((1 : ℕ) : ℚ)) ∧
      parts.sum = ((1000 : ℕ) : ℚ) / ((1 : ℕ) : ℚ) ∧
      (∀ i : ℕ, ∀ h : i < parts.length,
        parts.get ⟨i, h⟩ = ((1000 / 3 : ℕ) : ℚ) / ((1 : ℕ) : ℚ) +
          (if i < 1000 % 3 then (1 : ℚ) / ((1 : ℕ) : ℚ) else 0)) ∧
      (∀ i j : ℕ, ∀ hi : i < parts.length, ∀ hj : j < parts.length, i ≤ j →
        parts.get ⟨j, hj⟩ ≤ parts.get ⟨i, hi⟩ ∧
        parts.get ⟨i, hi⟩ ≤ parts.get ⟨j, hj⟩ + 1 / ((1 : ℕ) : ℚ))) :=
  ⟨⟨⟨by decide, by decide⟩, by
      simp only [split_across_buckets]
      norm_num [List.ofFn_succ]⟩,
    claim_C2_volume_splitter 1000 3 1 (by decide) (by decide)⟩

/-- State of an `ExecutionAlgo` as read and written by
`update_remaining_volume` (`execution_algo.py:230-239`): the global
remaining volume, the per-bucket remaining volumes, the bucket cursor,
the tick size and the per-bucket volume targets. -/
structure AlgoState where
  vol_remaining : ℚ
  bucket_vol_remaining : List ℚ
  bucket_idx : ℕ
  tick_size : ℚ
  bucket_volumes : List ℚ
  deriving DecidableEq

/-- Embeds `ExecutionAlgo.update_remaining_volume(trade_log, event_type)`
(`execution_algo.py:230-239`).  `tradeLog` is the quantity field of the
trade log (if a log is present); the `ValueError` raised when the floor
check fails is embedded as `Except.error`. -/
def update_remaining_volume (s : AlgoState) (tradeLog : Option ℚ)
    (eventType : Option String) : Except String AlgoState :=
  let s1 :=
    match tradeLog with
    | some q =>
        if 0 < q then
          { s with
            vol_remaining := s.vol_remaining - q
            bucket_vol_remaining :=
              s.bucket_vol_remaining.set s.bucket_idx
                (s.bucket_vol_remaining.getD s.bucket_idx 0 - q) }
        else s
    | none => s
  if s1.vol_remaining < -s1.tick_size * (s1.bucket_volumes.length : ℚ) ∨
      s1.bucket_vol_remaining.getD s1.bucket_idx 0 < -s1.tick_size then
    Except.error "More volume than available placed!"
  else if eventType = some "bucket_bound" then
    Except.ok { s1 with bucket_idx := s1.bucket_idx + 1 }
  else
    Except.ok s1

lemma getD_set_self (l : List ℚ) (i : ℕ) (a : ℚ) (h : i < l.length) :
    (l.set i a).getD i 0 = a := by
  rw [List.getD_eq_getElem?_getD, List.getElem?_set_eq_of_lt a h]
  rfl

/-- Claim C1 (amended): for every in-range schedule state and every realized
fill of positive quantity, `update_remaining_volume` decrements the global
and the current bucket's remaining volume by the fill quantity, and raises
the fatal consistency error exactly when the decremented global remaining
falls below `-tick_size * n_buckets` (not `-tick_size`) or the decremented
current bucket's remaining falls below `-tick_size`; otherwise it returns
normally. -/
theorem claim_C1_update_remaining_volume (s : AlgoState) (q : ℚ)
    (et : Option String) (hq : 0 < q)
    (hidx : s.bucket_idx < s.bucket_vol_remaining.length) :
    ((∃ s', update_remaining_volume s (some q) et = Except.ok s') ↔
      ¬(s.vol_remaining - q < -s.tick_size * (s.bucket_volumes.length : ℚ) ∨
        s.bucket_vol_remaining.getD s.bucket_idx 0 - q < -s.tick_size)) ∧
    (∀ s', update_remaining_volume s (some q) et = Except.ok s' →
      s'.vol_remaining = s.vol_remaining - q ∧
      s'.bucket_vol_remaining.getD s.bucket_idx 0 =
        s.bucket_vol_remaining.getD s.bucket_idx 0 - q) := by
  have hget := getD_set_self s.bucket_vol_remaining s.bucket_idx
    (s.bucket_vol_remaining.getD s.bucket_idx 0 - q) hidx
  unfold update_remaining_volume
  simp only [if_pos hq, hget]
  by_cases hviol : s.vol_remaining - q <
      -s.tick_size * (s.bucket_volumes.length : ℚ) ∨
      s.bucket_vol_remaining.getD s.bucket_idx 0 - q < -s.tick_size
  · rw [if_pos hviol]
    constructor
    · constructor
      · rintro ⟨s', hs'⟩
        cases hs'
      · intro h
        exact absurd hviol h
    · intro s' hs'
      cases hs'
  · rw [if_neg hviol]
    constructor
    · constructor
      · intro _
        exact hviol
      · intro _
        by_cases het : et = some "bucket_bound"
        · rw [if_pos het]
          exact ⟨_, rfl⟩
        · rw [if_neg het]
          exact ⟨_, rfl⟩
    · intro s' hs'
      by_cases het : et = some "bucket_bound"
      · rw [if_pos het] at hs'
        cases hs'
        exact ⟨rfl, hget⟩
      · rw [if_neg het] at hs'
        cases hs'
        exact ⟨rfl, hget⟩

/-- Witness for C1 at a concrete state: one bucket of volume 5, tick 1,
remaining 5, fill 3 — the update succeeds and both remainings drop to 2. -/
theorem claim_C1_update_remaining_volume_witness :
    ((0 : ℚ) < 3 ∧
      (AlgoState.mk 5 [5] 0 1 [5]).bucket_idx <
        (AlgoState.mk 5 [5] 0 1 [5]).bucket_vol_remaining.length) ∧
    ((∃ s', update_remaining_volume (AlgoState.mk 5 [5] 0 1 [5]) (some 3) none =
        Except.ok s') ↔
      ¬((AlgoState.mk 5 [5] 0 1 [5]).vol_remaining - 3 <
          -(AlgoState.mk 5 [5] 0 1 [5]).tick_size *
            ((AlgoState.mk 5 [5] 0 1 [5]).bucket_volumes.length : ℚ) ∨
        (AlgoState.mk 5 [5] 0 1 [5]).bucket_vol_remaining.getD
            (AlgoState.mk 5 [5] 0 1 [5]).bucket_idx 0 - 3 <
          -(AlgoState.mk 5 [5] 0 1 [5]).tick_size)) ∧
    (∀ s', update_remaining_volume (AlgoState.mk 5 [5] 0 1 [5]) (some 3) none =
        Except.ok s' →
      s'.vol_remaining = (AlgoState.mk 5 [5] 0 1 [5]).vol_remaining - 3 ∧
      s'.bucket_vol_remaining.getD (AlgoState.mk 5 [5] 0 1 [5]).bucket_idx 0 =
        (AlgoState.mk 5 [5] 0 1 [5]).bucket_vol_remaining.getD
          (AlgoState.mk 5 [5] 0 1 [5]).bucket_idx 0 - 3) := by
  refine ⟨⟨by norm_num, by decide⟩, ?_, ?_⟩
  · exact (claim_C1_update_remaining_volume (AlgoState.mk 5 [5] 0 1 [5]) 3 none
      (by norm_num) (by decide)).1
  · exact (claim_C1_update_remaining_volume (AlgoState.mk 5 [5] 0 1 [5]) 3 none
      (by norm_num) (by decide)).2

/-- Counterexample to C1 as stated: with two buckets (tick 1), global
remaining 0 and current bucket remaining 10, a fill of 2 drives the global
remaining to -2, strictly below `-tick_size = -1`, yet the code returns
normally (its global floor is `-tick_size * n_buckets = -2`). -/
theorem claim_C1_counterexample :
    update_remaining_volume (AlgoState.mk 0 [10, 10] 0 1 [1, 1]) (some 2) none =
      Except.ok (AlgoState.mk (-2) [8, 10] 0 1 [1, 1]) ∧
    (AlgoState.mk (-2) [8, 10] 0 1 [1, 1]).vol_remaining <
      -(AlgoState.mk 0 [10, 10] 0 1 [1, 1]).tick_size := by
  constructor
  · simp only [update_remaining_volume]
    norm_num
    decide
  · norm_num

/-- Claim C10 (amended): provided the state satisfies the remaining-volume
floor checks, calling `update_remaining_volume` with a missing trade log or
a fill quantity of zero or less leaves the global and every per-bucket
remaining volume unchanged, and the bucket cursor advances by one exactly
when the event type is `bucket_bound`.  (Without the floor-check proviso
the call can instead raise, see the counterexample.) -/
theorem claim_C10_update_frame (s : AlgoState) (tl : Option ℚ)
    (et : Option String)
    (htl : tl = none ∨ ∃ q, tl = some q ∧ q ≤ 0)
    (hg : ¬(s.vol_remaining < -s.tick_size * (s.bucket_volumes.length : ℚ)))
    (hb : ¬(s.bucket_vol_remaining.getD s.bucket_idx 0 < -s.tick_size)) :
    update_remaining_volume s tl et =
      Except.ok { s with bucket_idx :=
        s.bucket_idx + if et = some "bucket_bound" then 1 else 0 } := by
  rcases htl with h | ⟨q, hq, hq0⟩
  · subst h
    unfold update_remaining_volume
    rw [if_neg (not_or.mpr ⟨hg, hb⟩)]
    by_cases het : et = some "bucket_bound"
    · rw [if_pos het, if_pos het]
    · rw [if_neg het, if_neg het]
      simp
  · subst hq
    unfold update_remaining_volume
    simp only [if_neg (not_lt.mpr hq0)]
    rw [if_neg (not_or.mpr ⟨hg, hb⟩)]
    by_cases het : et = some "bucket_bound"
    · rw [if_pos het, if_pos het]
    · rw [if_neg het, if_neg het]
      simp

/-- Witness for C10: a healthy one-bucket state with a missing trade log at
a `bucket_bound` event keeps its volumes and advances the cursor to 1. -/
theorem claim_C10_update_frame_witness :
    ((none : Option ℚ) = none ∨ ∃ q, (none : Option ℚ) = some q ∧ q ≤ 0) ∧
    ¬((AlgoState.mk 5 [5] 0 1 [5]).vol_remaining <
        -(AlgoState.mk 5 [5] 0 1 [5]).tick_size *
          ((AlgoState.mk 5 [5] 0 1 [5]).bucket_volumes.length : ℚ)) ∧
    ¬((AlgoState.mk 5 [5] 0 1 [5]).bucket_vol_remaining.getD
          (AlgoState.mk 5 [5] 0 1 [5]).bucket_idx 0 <
        -(AlgoState.mk 5 [5] 0 1 [5]).tick_size) ∧
    update_remaining_volume (AlgoState.mk 5 [5] 0 1 [5]) none
        (some "bucket_bound") =
      Except.ok { AlgoState.mk 5 [5] 0 1 [5] with bucket_idx :=
        (AlgoState.mk 5 [5] 0 1 [5]).bucket_idx +
          if (some "bucket_bound" : Option String) = some "bucket_bound"
          then 1 else 0 } := by
  refine ⟨Or.inl rfl, by norm_num, by norm_num, ?_⟩
  exact claim_C10_update_frame (AlgoState.mk 5 [5] 0 1 [5]) none
    (some "bucket_bound") (Or.inl rfl) (by norm_num) (by norm_num)

/-- Counterexample to C10 as stated: on a state already below the global
floor (one bucket, tick 1, global remaining -3), a call with a missing
trade log and event type `bucket_bound` raises the consistency error
instead of returning with the bucket cursor advanced. -/
theorem claim_C10_counterexample :
    update_remaining_volume (AlgoState.mk (-3) [0] 0 1 [1]) none
        (some "bucket_bound") =
      Except.error "More volume than available placed!" := by
  simp only [update_remaining_volume]
  norm_num

/-- Embeds `BaseEnv.infer_volume_from_action` (`base_env.py:284-294`).
`action` is the converted action, `volDefault` the benchmark's default
volume for the current `(bucket, slice)` cell, `currentVol` the adaptive
cell's current volume, `bucketRemaining` the adaptive bucket's remaining
volume, and `m` the tick multiplier `10 ** -exponent(tick_size)`. -/
def infer_volume_from_action (action volDefault currentVol bucketRemaining : ℚ)
    (m : ℕ) : ℚ :=
  let volToTrade := currentVol + action * volDefault
  let q : ℚ := (⌊volToTrade * m⌋ : ℚ) / m
  if bucketRemaining < q then bucketRemaining else q

/-- Claim C5: the inferred volume is the target volume quantized down to a
multiple of the tick size, replaced by exactly the bucket's remaining
volume whenever the quantized value exceeds it; hence it never exceeds the
bucket's remaining volume. -/
theorem claim_C5_infer_volume (action volDefault currentVol r : ℚ) (m : ℕ)
    (hm : 0 < m) :
    infer_volume_from_action action volDefault currentVol r m ≤ r ∧
    (∃ j : ℤ,
      (⌊(currentVol + action * volDefault) * m⌋ : ℚ) / m = (j : ℚ) / m) ∧
    (⌊(currentVol + action * volDefault) * m⌋ : ℚ) / m ≤
      currentVol + action * volDefault ∧
    (r < (⌊(currentVol + action * volDefault) * m⌋ : ℚ) / m →
      infer_volume_from_action action volDefault currentVol r m = r) ∧
    ((⌊(currentVol + action * volDefault) * m⌋ : ℚ) / m ≤ r →
      infer_volume_from_action action volDefault currentVol r m =
        (⌊(currentVol + action * volDefault) * m⌋ : ℚ) / m) := by
  have hm' : (0 : ℚ) < (m : ℚ) := by positivity
  refine ⟨?_, ⟨⌊(currentVol + action * volDefault) * m⌋, rfl⟩, ?_, ?_, ?_⟩
  · unfold infer_volume_from_action
    by_cases h : r < (⌊(currentVol + action * volDefault) * m⌋ : ℚ) / m
    · rw [if_pos h]
    · rw [if_neg h]
      exact not_lt.mp h
  · rw [div_le_iff₀ hm']
    exact Int.floor_le _
  · intro h
    unfold infer_volume_from_action
    rw [if_pos h]
  · intro h
    unfold infer_volume_from_action
    rw [if_neg (not_lt.mpr h)]

/-- Witness for C5: with tick 1, current cell volume 0, default volume 10,
action 1 and bucket remaining 5, the quantized target 10 exceeds the
remaining volume and is clipped exactly to 5. -/
theorem claim_C5_infer_volume_witness :
    (0 : ℕ) < 1 ∧
    infer_volume_from_action 1 10 0 5 1 ≤ 5 ∧
    ((5 : ℚ) < (⌊((0 : ℚ) + 1 * 10) * (1 : ℕ)⌋ : ℚ) / (1 : ℕ) →
      infer_volume_from_action 1 10 0 5 1 = 5) := by
  refine ⟨by decide, ?_, ?_⟩
  · exact (claim_C5_infer_volume 1 10 0 5 1 (by decide)).1
  · exact (claim_C5_infer_volume 1 10 0 5 1 (by decide)).2.2.2.1

/-- Embeds the `while` loop of `Bucket.bucket_bounds`
(`execution_algo.py:87-93`): starting from `last`, repeatedly append
`last + width * (1 + rand_add/100)` while the last bound is before
`end_time`.  `jit k` is the `randint(-rand_width, rand_width)` draw of
iteration `k` (0 when no jitter is requested); running out of fuel models
non-termination and yields `none`. -/
def bucket_bounds_loop (width endT : ℚ) (jit : ℕ → ℤ) :
    ℕ → ℕ → ℚ → Option (List ℚ)
  | 0, _, _ => none
  | fuel+1, k, last =>
      if last < endT then
        (bucket_bounds_loop width endT jit fuel (k+1)
          (last + width * (1 + (jit k : ℚ) / 100))).map
          (fun rest => (last + width * (1 + (jit k : ℚ) / 100)) :: rest)
      else some []

/-- Embeds `Bucket.bucket_bounds` (`execution_algo.py:81-105`): run the
loop from `start_time`, delete the last bound if it reached `end_time`
(after the loop it always has), then append `end_time` as the final
bound. -/
def bucket_bounds (fuel : ℕ) (startT endT width : ℚ) (jit : ℕ → ℤ) :
    Option (List ℚ) :=
  (bucket_bounds_loop width endT jit fuel 0 startT).map (fun appended =>
    (if endT ≤ (startT :: appended).getLast (List.cons_ne_nil _ _)
     then (startT :: appended).dropLast
     else startT :: appended) ++ [endT])

/-- Embeds the `rand_bucket` checks of `BaseEnv._validate_config`
(`base_env.py:433-437`): the jitter-width range passes validation iff
`low ≤ high`, `0 ≤ low` and `high ≤ 100`. -/
def validate_rand_bucket (low high : ℤ) : Bool :=
  if low > high then false
  else if low < 0 ∨ high > 100 then false
  else true

lemma bucket_bounds_loop_spec (width endT : ℚ) (jit : ℕ → ℤ) (hw : 0 < width)
    (hjit : ∀ k, (-100 : ℤ) < jit k) :
    ∀ fuel k last l, bucket_bounds_loop width endT jit fuel k last = some l →
      List.Chain' (· < ·) (last :: l) ∧
      (∀ x ∈ (last :: l).dropLast, x < endT) ∧
      endT ≤ (last :: l).getLast (List.cons_ne_nil _ _) ∧
      (last < endT → l ≠ []) := by
  intro fuel
  induction fuel with
  | zero =>
    intro k last l h
    cases h
  | succ fuel ih =>
    intro k last l h
    rw [bucket_bounds_loop] at h
    by_cases hl : last < endT
    · rw [if_pos hl] at h
      cases hrec : bucket_bounds_loop width endT jit fuel (k + 1)
          (last + width * (1 + (jit k : ℚ) / 100)) with
      | none =>
        rw [hrec] at h
        cases h
      | some rest =>
        rw [hrec] at h
        simp only [Option.map_some'] at h
        obtain rfl := (Option.some.injEq _ _).mp h
        obtain ⟨hch, hdl, hgl, -⟩ := ih (k + 1) _ rest hrec
        have hj : (-100 : ℚ) < (jit k : ℚ) := by exact_mod_cast hjit k
        have hpos : last < last + width * (1 + (jit k : ℚ) / 100) := by
          nlinarith
        refine ⟨?_, ?_, ?_, fun _ => List.cons_ne_nil _ _⟩
        · rw [List.chain'_cons]
          exact ⟨hpos, hch⟩
        · intro x hx
          rw [List.dropLast_cons₂, List.mem_cons] at hx
          rcases hx with hx | hx
          · rw [hx]
            exact hl
          · exact hdl x hx
        · rw [List.getLast_cons (List.cons_ne_nil _ _)]
          exact hgl
    · rw [if_neg hl] at h
      obtain rfl := (Option.some.injEq _ _).mp h.symm
      refine ⟨by simp, by simp, ?_, fun hc => absurd hc hl⟩
      simpa [List.getLast] using not_lt.mp hl

/-- Claim C4 (amended): for every `start_time < end_time`, positive bucket
width, and jitter draws strictly above -100 (as produced by any jitter
width from 0 to 99; a width of 100 also passes validation but admits the
draw -100, see the counterexample), every constructed bound list is
strictly increasing, begins at `start_time`, and ends exactly at
`end_time`. -/
theorem claim_C4_bucket_bounds (fuel : ℕ) (startT endT width : ℚ)
    (jit : ℕ → ℤ) (hw : 0 < width) (hse : startT < endT)
    (hjit : ∀ k, (-100 : ℤ) < jit k) (bs : List ℚ)
    (h : bucket_bounds fuel startT endT width jit = some bs) :
    List.Chain' (· < ·) bs ∧ bs.head? = some startT ∧
      bs.getLast? = some endT := by
  unfold bucket_bounds at h
  cases hrec : bucket_bounds_loop width endT jit fuel 0 startT with
  | none =>
    rw [hrec] at h
    cases h
  | some appended =>
    rw [hrec] at h
    simp only [Option.map_some'] at h
    obtain rfl := (Option.some.injEq _ _).mp h
    obtain ⟨hch, hdl, hgl, hne⟩ :=
      bucket_bounds_loop_spec width endT jit hw hjit fuel 0 startT appended hrec
    have hap : appended ≠ [] := hne hse
    rw [if_pos hgl]
    have hpw : List.Pairwise (· < ·) ((startT :: appended).dropLast) :=
      (List.chain'_iff_pairwise.mp hch).sublist (List.dropLast_sublist _)
    refine ⟨?_, ?_, ?_⟩
    · rw [List.chain'_iff_pairwise, List.pairwise_append]
      refine ⟨hpw, List.pairwise_singleton _ _, fun x hx y hy => ?_⟩
      rw [List.mem_singleton] at hy
      rw [hy]
      exact hdl x hx
    · cases appended with
      | nil => exact absurd rfl hap
      | cons a t =>
        rw [List.dropLast_cons₂, List.cons_append, List.head?_cons]
    · exact List.getLast?_concat _

/-- Witness for C4: with no jitter, width 7 over `[0, 10]` the bounds are
`[0, 7, 10]` — strictly increasing, starting at 0 and ending exactly at
10. -/
theorem claim_C4_bucket_bounds_witness :
    ((0 : ℚ) < 7 ∧ (0 : ℚ) < 10 ∧
      (∀ k : ℕ, (-100 : ℤ) < (fun _ : ℕ => (0 : ℤ)) k) ∧
      bucket_bounds 5 0 10 7 (fun _ => 0) = some [0, 7, 10]) ∧
    (List.Chain' (· < ·) ([0, 7, 10] : List ℚ) ∧
      ([0, 7, 10] : List ℚ).head? = some 0 ∧
      ([0, 7, 10] : List ℚ).getLast? = some 10) := by
  have h1 : bucket_bounds_loop 7 10 (fun _ => (0 : ℤ)) 3 2 14 = some [] := by
    rw [show (3 : ℕ) = 2 + 1 from rfl, bucket_bounds_loop]
    norm_num
  have h2 : bucket_bounds_loop 7 10 (fun _ => (0 : ℤ)) 4 1 7 = some [14] := by
    rw [show (4 : ℕ) = 3 + 1 from rfl, bucket_bounds_loop]
    norm_num [h1]
  have h3 : bucket_bounds_loop 7 10 (fun _ => (0 : ℤ)) 5 0 0 = some [7, 14] := by
    rw [show (5 : ℕ) = 4 + 1 from rfl, bucket_bounds_loop]
    norm_num [h2]
  have heval : bucket_bounds 5 0 10 7 (fun _ => 0) = some [0, 7, 10] := by
    rw [bucket_bounds, h3]
    norm_num [List.getLast, List.dropLast]
  exact ⟨⟨by norm_num, by norm_num, fun k => by norm_num, heval⟩,
    claim_C4_bucket_bounds 5 0 10 7 (fun _ => 0) (by norm_num) (by norm_num)
      (fun k => by norm_num) [0, 7, 10] heval⟩

/-- The jitter-draw stream of the C4 counterexample: the first bucket draws
-100 (possible under `randint(-100, 100)` when the jitter width is 100),
later buckets draw 0. -/
def c4jit : ℕ → ℤ := fun k => if k = 0 then -100 else 0

/-- Counterexample to C4 as stated: a jitter width of 100 passes the
configuration validation, its draw -100 makes the width multiplier zero,
and with width 7 over `[0, 14]` the constructed bounds `[0, 0, 7, 14]`
repeat the bound 0, so they are not strictly increasing. -/
theorem claim_C4_counterexample :
    validate_rand_bucket 0 100 = true ∧
    (∀ k, (-100 : ℤ) ≤ c4jit k ∧ c4jit k ≤ 100) ∧
    bucket_bounds 4 0 14 7 c4jit = some [0, 0, 7, 14] ∧
    ¬ List.Chain' (· < ·) ([0, 0, 7, 14] : List ℚ) := by
  refine ⟨by decide, ?_, ?_, ?_⟩
  · intro k
    unfold c4jit
    by_cases h : k = 0
    · rw [if_pos h]
      omega
    · rw [if_neg h]
      omega
  · have h1 : bucket_bounds_loop 7 14 c4jit 1 3 14 = some [] := by
      rw [show (1 : ℕ) = 0 + 1 from rfl, bucket_bounds_loop]
      norm_num
    have h2 : bucket_bounds_loop 7 14 c4jit 2 2 7 = some [14] := by
      rw [show (2 : ℕ) = 1 + 1 from rfl, bucket_bounds_loop]
      norm_num [c4jit, h1]
    have h3 : bucket_bounds_loop 7 14 c4jit 3 1 0 = some [7, 14] := by
      rw [show (3 : ℕ) = 2 + 1 from rfl, bucket_bounds_loop]
      norm_num [c4jit, h2]
    have h4 : bucket_bounds_loop 7 14 c4jit 4 0 0 = some [0, 7, 14] := by
      rw [show (4 : ℕ) = 3 + 1 from rfl, bucket_bounds_loop]
      norm_num [c4jit, h3]
    rw [bucket_bounds, h4]
    norm_num [List.getLast, List.dropLast]
  · rw [List.chain'_cons]
    norm_num

/-- Embeds `Bucket._bucket_size` (`execution_algo.py:61-79`): maps the
parent-order duration (seconds) to the canonical bucket width (seconds)
through the `BUCKET_SIZES_IN_SECS` lookup.  A duration whose derived key is
absent (e.g. duration 0 giving key `0m`) raises `KeyError`, embedded as
`none`. -/
def bucket_size (durSecs : ℚ) : Option ℚ :=
  if 30 < durSecs / 60 then
    if (if 5 ≤ ⌊durSecs / 60 / 60⌋ + 1 then (4 : ℤ)
        else ⌊durSecs / 60 / 60⌋ + 1) = 1 then some 300
    else if (if 5 ≤ ⌊durSecs / 60 / 60⌋ + 1 then (4 : ℤ)
        else ⌊durSecs / 60 / 60⌋ + 1) = 2 then some 600
    else if (if 5 ≤ ⌊durSecs / 60 / 60⌋ + 1 then (4 : ℤ)
        else ⌊durSecs / 60 / 60⌋ + 1) = 3 then some 900
    else if (if 5 ≤ ⌊durSecs / 60 / 60⌋ + 1 then (4 : ℤ)
        else ⌊durSecs / 60 / 60⌋ + 1) = 4 then some 1200
    else none
  else if 10 < durSecs / 60 then some 180
  else if 5 < durSecs / 60 then some 60
  else
    if ⌈durSecs / 60⌉ = 1 then some 7
    else if ⌈durSecs / 60⌉ = 2 then some 15
    else if ⌈durSecs / 60⌉ = 3 then some (45 / 2)
    else if ⌈durSecs / 60⌉ = 4 then some 24
    else if ⌈durSecs / 60⌉ = 5 then some 30
    else none

/-- The last bucket's volume in `TWAPAlgo._split_volume_across_buckets`
(`execution_algo.py:332-335`):
`floor(volume * (last_bucket_duration / total_duration) * (1/tick)) * tick`
with `bounds[-1]`, `bounds[-2]`, `bounds[0]` read off the bound list. -/
def twap_vol_last_bucket (volume : ℚ) (bounds : List ℚ) (m : ℕ) : ℚ :=
  ((⌊volume * ((bounds.getLastD 0 - bounds.getD (bounds.length - 2) 0) /
      (bounds.getLastD 0 - bounds.headD 0)) * m⌋ : ℤ) : ℚ) / m

/-- Embeds `TWAPAlgo._split_volume_across_buckets`
(`execution_algo.py:329-342`): split `volume - vol_last_bucket` across
`n_buckets - 1` buckets and append the last bucket's volume; `none` is the
`ZeroDivisionError` of `split_across_buckets` when `n_buckets - 1 = 0`. -/
def twap_split_volume_across_buckets (volume : ℚ) (bounds : List ℚ)
    (m : ℕ) : Option (List ℚ) :=
  (split_across_buckets (volume - twap_vol_last_bucket volume bounds m)
      (bounds.length - 1 - 1) m).map
    (fun bucketVol => bucketVol ++ [twap_vol_last_bucket volume bounds m])

/-- Embeds `TWAPAlgo._split_volume_within_buckets`
(`execution_algo.py:344-354`): split each bucket's volume across
`no_of_slices` slices. -/
def twap_split_volume_within_buckets (nSlices m : ℕ) :
    List ℚ → Option (List (List ℚ))
  | [] => some []
  | v :: rest =>
      match split_across_buckets v nSlices m,
          twap_split_volume_within_buckets nSlices m rest with
      | some s, some ss => some (s :: ss)
      | _, _ => none

/-- Embeds the volume-splitting part of `TWAPAlgo.__init__`
(`execution_algo.py:316-326`): build the bucket volumes, fail when their
sum deviates from the total volume by more than one tick, build the
per-slice volumes, fail when their total deviates by more than one tick,
else return both tables. -/
def twap_construct (volume : ℚ) (bounds : List ℚ) (m nSlices : ℕ) :
    Except String (List ℚ × List (List ℚ)) :=
  match twap_split_volume_across_buckets volume bounds m with
  | none => Except.error "ZeroDivisionError"
  | some bucketVolumes =>
    if 1 / (m : ℚ) < |bucketVolumes.sum - volume| then
      Except.error "Volumes split across buckets didn't work out!"
    else
      match twap_split_volume_within_buckets nSlices m bucketVolumes with
      | none => Except.error "ZeroDivisionError"
      | some volumesPerTrade =>
        if 1 / (m : ℚ) < |(volumesPerTrade.map List.sum).sum - volume| then
          Except.error "Volumes split across orders didn't work out!"
        else
          Except.ok (bucketVolumes, volumesPerTrade)

/-- Claim C3: every successfully constructed TWAP schedule has its last
bucket volume computed directly by the floor formula
(`twap_vol_last_bucket`), the remaining total split across the other
buckets by the volume splitter, and — since construction raises whenever
either sum deviates from the total volume by more than one tick — both the
bucket-volume sum and the all-slice sum within one tick of the total. -/
theorem claim_C3_twap_construct (volume : ℚ) (bounds : List ℚ)
    (m nSlices : ℕ) (bucketVolumes : List ℚ)
    (volumesPerTrade : List (List ℚ))
    (h : twap_construct volume bounds m nSlices =
      Except.ok (bucketVolumes, volumesPerTrade)) :
    (∃ rest,
      split_across_buckets (volume - twap_vol_last_bucket volume bounds m)
        (bounds.length - 1 - 1) m = some rest ∧
      bucketVolumes = rest ++ [twap_vol_last_bucket volume bounds m]) ∧
    bucketVolumes.getLast? = some (twap_vol_last_bucket volume bounds m) ∧
    |bucketVolumes.sum - volume| ≤ 1 / m ∧
    |(volumesPerTrade.map List.sum).sum - volume| ≤ 1 / m := by
  unfold twap_construct at h
  cases hsp : twap_split_volume_across_buckets volume bounds m with
  | none =>
    simp only [hsp] at h
    cases h
  | some bv =>
    simp only [hsp] at h
    by_cases hc1 : 1 / (m : ℚ) < |bv.sum - volume|
    · rw [if_pos hc1] at h
      cases h
    · rw [if_neg hc1] at h
      cases hwi : twap_split_volume_within_buckets nSlices m bv with
      | none =>
        simp only [hwi] at h
        cases h
      | some vpt =>
        simp only [hwi] at h
        by_cases hc2 : 1 / (m : ℚ) < |(vpt.map List.sum).sum - volume|
        · rw [if_pos hc2] at h
          cases h
        · rw [if_neg hc2] at h
          injection h with hpair
          injection hpair with h1 h2
          subst h1
          subst h2
          unfold twap_split_volume_across_buckets at hsp
          cases hsp2 : split_across_buckets
              (volume - twap_vol_last_bucket volume bounds m)
              (bounds.length - 1 - 1) m with
          | none =>
            rw [hsp2] at hsp
            cases hsp
          | some rest =>
            rw [hsp2] at hsp
            simp only [Option.map_some'] at hsp
            obtain rfl := (Option.some.injEq _ _).mp hsp
            refine ⟨⟨rest, rfl, rfl⟩, ?_, not_lt.mp hc1, not_lt.mp hc2⟩
            exact List.getLast?_concat _

/-- Witness for C3: volume 1000 over bounds `[0, 5, 10]` (tick 1, two
slices) constructs bucket volumes `[500, 500]` (last bucket by the floor
formula) and slice volumes `[[250, 250], [250, 250]]`, and the theorem
applies to that construction. -/
theorem claim_C3_twap_construct_witness :
    twap_construct 1000 [0, 5, 10] 1 2 =
      Except.ok ([500, 500], [[250, 250], [250, 250]]) ∧
    ((∃ rest,
      split_across_buckets (1000 - twap_vol_last_bucket 1000 [0, 5, 10] 1)
        (([0, 5, 10] : List ℚ).length - 1 - 1) 1 = some rest ∧
      ([500, 500] : List ℚ) =
        rest ++ [twap_vol_last_bucket 1000 [0, 5, 10] 1]) ∧
    ([500, 500] : List ℚ).getLast? =
      some (twap_vol_last_bucket 1000 [0, 5, 10] 1) ∧
    |([500, 500] : List ℚ).sum - 1000| ≤ 1 / (1 : ℕ) ∧
    |(([[250, 250], [250, 250]] : List (List ℚ)).map List.sum).sum - 1000| ≤
      1 / (1 : ℕ)) := by
  have hvl : twap_vol_last_bucket 1000 [0, 5, 10] 1 = 500 := by
    rw [twap_vol_last_bucket]
    norm_num [List.getLastD, List.getD, List.headD]
  have hsp1 : split_across_buckets 500 1 1 = some [500] := by
    simp only [split_across_buckets]
    norm_num [List.ofFn_succ]
  have hsab : twap_split_volume_across_buckets 1000 [0, 5, 10] 1 =
      some [500, 500] := by
    rw [twap_split_volume_across_buckets, hvl,
      show (1000 : ℚ) - 500 = 500 from by norm_num]
    norm_num
    exact ⟨[500], hsp1, rfl⟩
  have hs500 : split_across_buckets 500 2 1 = some [250, 250] := by
    simp only [split_across_buckets]
    norm_num [List.ofFn_succ]
  have hwi : twap_split_volume_within_buckets 2 1 [500, 500] =
      some [[250, 250], [250, 250]] := by
    simp only [twap_split_volume_within_buckets, hs500]
  have heval : twap_construct 1000 [0, 5, 10] 1 2 =
      Except.ok ([500, 500], [[250, 250], [250, 250]]) := by
    simp only [twap_construct, hsab, hwi]
    norm_num
  exact ⟨heval,
    claim_C3_twap_construct 1000 [0, 5, 10] 1 2 [500, 500]
      [[250, 250], [250, 250]] heval⟩

/-- Claim C9: any parent order whose duration is positive but no longer
than its canonical bucket width produces exactly one bucket
(`bounds = [0, d]`), and the TWAP construction then calls the volume
splitter with `n_buckets - 1 = 0` parts, which raises an unguarded
`ZeroDivisionError` (Python `divmod(_, 0)`) instead of a configuration
error. -/
theorem claim_C9_single_bucket_division_by_zero (f : ℕ) (d w volume : ℚ)
    (m nSlices : ℕ) (hd : 0 < d) (hdw : d ≤ w)
    (hbs : bucket_size d = some w) :
    bucket_bounds (f + 2) 0 d w (fun _ => 0) = some [0, d] ∧
    twap_construct volume [0, d] m nSlices =
      Except.error "ZeroDivisionError" := by
  constructor
  · have h0 : bucket_bounds_loop w d (fun _ => 0) (f + 1) 1 w = some [] := by
      rw [bucket_bounds_loop, if_neg (not_lt.mpr hdw)]
    have h1 : bucket_bounds_loop w d (fun _ => 0) (f + 1 + 1) 0 0 =
        some [w] := by
      rw [bucket_bounds_loop, if_pos hd]
      norm_num [h0]
    rw [show f + 2 = f + 1 + 1 from rfl, bucket_bounds, h1]
    simp only [Option.map_some']
    rw [show ([0, w] : List ℚ).getLast (List.cons_ne_nil _ _) = w from rfl]
    rw [if_pos hdw]
    rfl
  · have hz : twap_split_volume_across_buckets volume [0, d] m = none := by
      rw [twap_split_volume_across_buckets]
      norm_num [split_across_buckets]
    simp only [twap_construct, hz]

/-- Witness for C9: a 7-second parent order (canonical width 7s for the
`1m` key) yields the single bucket `[0, 7]` and the construction of a
volume-1000, tick-1, two-slice schedule raises the division-by-zero
error. -/
theorem claim_C9_single_bucket_division_by_zero_witness :
    ((0 : ℚ) < 7 ∧ (7 : ℚ) ≤ 7 ∧ bucket_size 7 = some 7) ∧
    bucket_bounds (0 + 2) 0 7 7 (fun _ => 0) = some [0, 7] ∧
    twap_construct 1000 [0, 7] 1 2 = Except.error "ZeroDivisionError" := by
  have hbs : bucket_size 7 = some 7 := by
    have hc : (⌈(7 : ℚ) / 60⌉ : ℤ) = 1 := by
      rw [Int.ceil_eq_iff]
      norm_num
    rw [bucket_size, hc]
    norm_num
  exact ⟨⟨by norm_num, le_refl 7, hbs⟩,
    claim_C9_single_bucket_division_by_zero 0 7 7 1000 1 2 (by norm_num)
      (le_refl 7) hbs⟩

/-- Embeds `_get_execution_times` (`execution_algo.py:32-38`): scale the
placement-function offsets into absolute timestamps within the bucket
`[bLow, bHigh]`. -/
def get_execution_times (bLow bHigh : ℚ) (placements : List ℚ) : List ℚ :=
  placements.map (fun p => bLow + (bHigh - bLow) * p)

/-- Embeds the resampling `while` loop of
`ExecutionAlgo._sample_execution_times` (`execution_algo.py:162-166`) for
one bucket: redraw while the candidate list has fewer than `no_of_slices`
distinct values (`len(set(bucket_trades)) < no_of_slices`) or any
candidate lies in the bucket-bound list; `cands` is the stream of
candidate draws and the fuel bounds the number of attempts. -/
def sample_bucket_trades (bounds : List ℚ) (nSlices : ℕ) :
    ℕ → (ℕ → List ℚ) → Option (List ℚ)
  | 0, _ => none
  | fuel+1, cands =>
      if (cands 0).dedup.length < nSlices ∨ ∃ t ∈ cands 0, t ∈ bounds then
        sample_bucket_trades bounds nSlices fuel (fun k => cands (k + 1))
      else some (cands 0)

/-- Claim C7 (amended): whenever the retained candidate list has exactly
`no_of_slices` elements — as any placement function honouring its contract
produces — its timestamps are pairwise distinct and none lies on a bucket
bound.  (A longer candidate list can be retained with duplicates, see the
counterexample.) -/
theorem claim_C7_sample_distinct (bounds : List ℚ) (nSlices fuel : ℕ)
    (cands : ℕ → List ℚ) (ts : List ℚ)
    (h : sample_bucket_trades bounds nSlices fuel cands = some ts)
    (hlen : ts.length = nSlices) :
    ts.Nodup ∧ ∀ t ∈ ts, t ∉ bounds := by
  induction fuel generalizing cands with
  | zero => cases h
  | succ fuel ih =>
    rw [sample_bucket_trades] at h
    by_cases hc : (cands 0).dedup.length < nSlices ∨
        ∃ t ∈ cands 0, t ∈ bounds
    · rw [if_pos hc] at h
      exact ih _ h
    · rw [if_neg hc] at h
      obtain rfl := (Option.some.injEq _ _).mp h
      push_neg at hc
      obtain ⟨h1, h2⟩ := hc
      refine ⟨?_, h2⟩
      have hle : (cands 0).length ≤ (cands 0).dedup.length := by
        rw [hlen]
        exact h1
      have heq : (cands 0).dedup = cands 0 :=
        (List.dedup_sublist _).eq_of_length_le hle
      rw [← heq]
      exact List.nodup_dedup _

/-- Witness for C7: the candidate `[1, 2, 3]` with 3 slices and bounds
`[0, 10]` is retained at once, and the theorem gives distinctness and
disjointness from the bounds. -/
theorem claim_C7_sample_distinct_witness :
    sample_bucket_trades [0, 10] 3 1 (fun _ => [1, 2, 3]) =
      some [1, 2, 3] ∧
    ([1, 2, 3] : List ℚ).length = 3 ∧
    (([1, 2, 3] : List ℚ).Nodup ∧
      ∀ t ∈ ([1, 2, 3] : List ℚ), t ∉ ([0, 10] : List ℚ)) := by
  have hcond : ¬((([1, 2, 3] : List ℚ).dedup.length < 3) ∨
      ∃ t ∈ ([1, 2, 3] : List ℚ), t ∈ ([0, 10] : List ℚ)) := by
    push_neg
    constructor
    · norm_num [List.dedup_cons_of_not_mem]
    · intro t ht
      fin_cases ht <;> norm_num
  have h : sample_bucket_trades [0, 10] 3 1 (fun _ => [1, 2, 3]) =
      some [1, 2, 3] := by
    rw [sample_bucket_trades, if_neg hcond]
  exact ⟨h, rfl, claim_C7_sample_distinct [0, 10] 3 1 (fun _ => [1, 2, 3])
    [1, 2, 3] h rfl⟩

/-- Counterexample to C7 as stated: a placement-function output with four
offsets (more than `no_of_slices = 3`) containing a duplicate passes the
loop's exit test — `len(set)` is 3, not less than 3, and no element lies
on a bound — so the retained timestamps `[1, 1, 2, 3]` are not pairwise
distinct. -/
theorem claim_C7_counterexample :
    sample_bucket_trades [0, 10] 3 1 (fun _ => [1, 1, 2, 3]) =
      some [1, 1, 2, 3] ∧
    ¬ ([1, 1, 2, 3] : List ℚ).Nodup := by
  constructor
  · have hd : ([1, 1, 2, 3] : List ℚ).dedup = [1, 2, 3] := by
      norm_num [List.dedup_cons_of_mem, List.dedup_cons_of_not_mem]
    have hcond : ¬((([1, 1, 2, 3] : List ℚ).dedup.length < 3) ∨
        ∃ t ∈ ([1, 1, 2, 3] : List ℚ), t ∈ ([0, 10] : List ℚ)) := by
      push_neg
      constructor
      · rw [hd]
        norm_num
      · intro t ht
        fin_cases ht <;> norm_num
    rw [sample_bucket_trades, if_neg hcond]
  · norm_num [List.nodup_cons]

/-- Modelled from the spec: the broker collaborator's volume-weighted
average price over a window of (price, quantity) trades.  The broker is
outside `src/`; per the spec, reward-policy computation fails on an empty
comparison window ("Reward-policy computation failures (e.g., empty
comparison window)"), embedded as `Except.error`. -/
def vwap (trades : List (ℚ × ℚ)) : Except String ℚ :=
  if trades = [] then Except.error "empty comparison window"
  else Except.ok ((trades.map (fun t => t.1 * t.2)).sum /
    (trades.map Prod.snd).sum)

/-- Modelled from the spec: the broker's `calc_vwap_from_logs` over the two
trade-log windows, returning the pair (benchmark VWAP, adaptive VWAP) or
propagating the failure of either side. -/
def calc_vwap_from_logs (bmk rl : List (ℚ × ℚ)) : Except String (ℚ × ℚ) :=
  match vwap bmk, vwap rl with
  | Except.ok b, Except.ok r => Except.ok (b, r)
  | Except.error e, _ => Except.error e
  | _, Except.error e => Except.error e

/-- Embeds `ExampleEnvRewardAtStep.reward_func` (`base_env.py:456-469`),
the per-step sign variant: reward 1 when the adaptive VWAP beats the
benchmark directionally, else 0.  This variant has NO try/except, so a
VWAP-computation failure propagates. -/
def example_env_reward_at_step (bmk rl : List (ℚ × ℚ)) (dir : ℤ) :
    Except String ℚ :=
  match calc_vwap_from_logs bmk rl with
  | Except.error e => Except.error e
  | Except.ok (b, r) =>
      Except.ok (if dir = 1 then (if r < b then 1 else 0)
        else (if b < r then 1 else 0))

/-- Embeds `RewardAtStepEnv.reward_func` (`base_env.py:472-485`), the
per-step percentage variant: `vwap_bmk / vwap_rl - 1` when buying,
`vwap_rl / vwap_bmk - 1` when selling, with the whole computation wrapped
in try/except so any failure (empty window, zero divisor) yields 0. -/
def reward_at_step_env (bmk rl : List (ℚ × ℚ)) (dir : ℤ) : ℚ :=
  match calc_vwap_from_logs bmk rl with
  | Except.error _ => 0
  | Except.ok (b, r) =>
      if dir = 1 then (if r = 0 then 0 else b / r - 1)
      else (if b = 0 then 0 else r / b - 1)

/-- Embeds `RewardAtBucketEnv.reward_func` (`base_env.py:488-504`), the
per-bucket percentage variant: computes only when the bucket time
advanced, try/except to 0. -/
def reward_at_bucket_env (bucketChanged : Bool) (bmk rl : List (ℚ × ℚ))
    (dir : ℤ) : ℚ :=
  if bucketChanged then
    match calc_vwap_from_logs bmk rl with
    | Except.error _ => 0
    | Except.ok (b, r) =>
        if dir = 1 then (if r = 0 then 0 else b / r - 1)
        else (if b = 0 then 0 else r / b - 1)
  else 0

/-- Embeds `RewardAtEpisodeEnv.reward_func` (`base_env.py:507-522`), the
per-episode percentage variant: computes only at episode end, try/except
to 0. -/
def reward_at_episode_env (done : Bool) (bmk rl : List (ℚ × ℚ))
    (dir : ℤ) : ℚ :=
  if done then
    match calc_vwap_from_logs bmk rl with
    | Except.error _ => 0
    | Except.ok (b, r) =>
        if dir = 1 then (if r = 0 then 0 else b / r - 1)
        else (if b = 0 then 0 else r / b - 1)
  else 0

/-- Embeds `NarrowTradeLimitEnvContinuous.reward_func`
(`base_env.py:540-554`), the per-bucket dollar variant: VWAP difference in
dollars when the bucket time advanced, try/except to 0. -/
def narrow_continuous_reward (bucketChanged : Bool)
    (bmk rl : List (ℚ × ℚ)) (dir : ℤ) : ℚ :=
  if bucketChanged then
    match calc_vwap_from_logs bmk rl with
    | Except.error _ => 0
    | Except.ok (b, r) => if dir = 1 then b - r else r - b
  else 0

/-- Embeds `NarrowTradeLimitEnvDiscrete.reward_func`
(`base_env.py:591-607`), the per-bucket volume-scaled dollar variant,
try/except to 0. -/
def narrow_discrete_reward (bucketChanged : Bool) (vol : ℚ)
    (bmk rl : List (ℚ × ℚ)) (dir : ℤ) : ℚ :=
  if bucketChanged then
    match calc_vwap_from_logs bmk rl with
    | Except.error _ => 0
    | Except.ok (b, r) =>
        if dir = 1 then vol * (b - r) else vol * (r - b)
  else 0

/-- Embeds `DollarRewardAtStepEnv.reward_func` (`base_env.py:620-632`),
the per-step dollar variant, try/except to 0. -/
def dollar_reward_at_step_env (bmk rl : List (ℚ × ℚ)) (dir : ℤ) : ℚ :=
  match calc_vwap_from_logs bmk rl with
  | Except.error _ => 0
  | Except.ok (b, r) => if dir = 1 then b - r else r - b

/-- Claim C6 (amended): on an empty comparison window every reward variant
wrapped in try/except — the per-step percentage, per-bucket percentage,
per-episode percentage, per-bucket dollar, volume-scaled dollar and
per-step dollar variants — returns the neutral reward 0, but the per-step
sign variant (`ExampleEnvRewardAtStep.reward_func`) has no try/except and
propagates the failure instead of returning 0. -/
theorem claim_C6_empty_window_rewards (dir : ℤ) (bucketChanged done : Bool)
    (vol : ℚ) :
    reward_at_step_env [] [] dir = 0 ∧
    reward_at_bucket_env bucketChanged [] [] dir = 0 ∧
    reward_at_episode_env done [] [] dir = 0 ∧
    narrow_continuous_reward bucketChanged [] [] dir = 0 ∧
    narrow_discrete_reward bucketChanged vol [] [] dir = 0 ∧
    dollar_reward_at_step_env [] [] dir = 0 ∧
    example_env_reward_at_step [] [] dir =
      Except.error "empty comparison window" := by
  refine ⟨rfl, ?_, ?_, ?_, ?_, rfl, rfl⟩
  · cases bucketChanged <;> rfl
  · cases done <;> rfl
  · cases bucketChanged <;> rfl
  · cases bucketChanged <;> rfl

/-- Counterexample to C6 as stated: the per-step sign variant does not
return a neutral zero reward on an empty comparison window — it propagates
the VWAP-computation failure. -/
theorem claim_C6_counterexample :
    example_env_reward_at_step [] [] 1 =
      Except.error "empty comparison window" ∧
    ∀ q : ℚ, example_env_reward_at_step [] [] 1 ≠ Except.ok q := by
  refine ⟨rfl, fun q h => ?_⟩
  rw [show example_env_reward_at_step [] [] 1 =
    Except.error "empty comparison window" from rfl] at h
  cases h

/-- Claim C8: with benchmark VWAP 100 and adaptive VWAP 99 on a buy step
window, the percentage variant rewards `100/99 - 1 = 1/99 ≈ +0.0101`; with
benchmark 100 and adaptive 101 on a sell step window it rewards
`101/100 - 1 = 1/100`; and the per-step dollar variant rewards
`100 - 99 = +1.0` in the buy case. -/
theorem claim_C8_reward_scenarios :
    reward_at_step_env [(100, 1)] [(99, 1)] 1 = 100 / 99 - 1 ∧
    (100 : ℚ) / 99 - 1 = 1 / 99 ∧
    reward_at_step_env [(100, 1)] [(101, 1)] (-1) = 101 / 100 - 1 ∧
    (101 : ℚ) / 100 - 1 = 1 / 100 ∧
    dollar_reward_at_step_env [(100, 1)] [(99, 1)] 1 = 1 := by
  have hv : ∀ p : ℚ, vwap [(p, 1)] = Except.ok p := by
    intro p
    rw [vwap, if_neg (by simp)]
    norm_num
  have hc : ∀ p q : ℚ, calc_vwap_from_logs [(p, 1)] [(q, 1)] =
      Except.ok (p, q) := by
    intro p q
    rw [calc_vwap_from_logs, hv p, hv q]
  refine ⟨?_, by norm_num, ?_, by norm_num, ?_⟩
  · rw [reward_at_step_env, hc]
    norm_num
  · rw [reward_at_step_env, hc]
    norm_num
  · rw [dollar_reward_at_step_env, hc]
    norm_num
